import Mathlib

/-!
Verification of the Senergy rating/recommendation scoring engine and the
group ranked-choice voting lifecycle.

The definitions below are a shallow embedding of the TypeScript sources:
`RatingService` and `GroupService` (rating.service.ts / group.service.ts),
the `GET /api/explore/places` route (explore.ts) and the Discord bot's
`finalizeVoting` tally (commands/group.ts).  JavaScript numbers are
modelled as exact rationals (`ℚ`); `Math.round` on the non-negative values
arising here is `⌊x + 1/2⌋` (round half away from zero).  Wall-clock
timestamp fields (`createdAt`, `updatedAt`, `lastRatedAt`, `selectedAt`,
`archivedAt`) carry no logical content and are omitted from the record
types; display-only metadata (names, addresses, coordinates) is kept only
where an operation reads or writes it.
-/

namespace Senergy

/-- JavaScript `Math.round` for the non-negative inputs used by the code:
round half away from zero. -/
def jround (q : ℚ) : ℤ := ⌊q + 1/2⌋

/-- Rounding to one decimal, as `Math.round(x * 10) / 10` in the source. -/
def round1 (q : ℚ) : ℚ := (jround (q * 10) : ℚ) / 10

/-- Five category scores of a rating (rating.service.ts `RatingCategory`). -/
structure RatingCategory where
  crowdSize : ℚ
  noiseLevel : ℚ
  socialEnergy : ℚ
  service : ℚ
  atmosphere : ℚ
deriving DecidableEq, Repr

/-- Each of the five dimensions lies in the documented range [1,10]. -/
def InRange (c : RatingCategory) : Prop :=
  (1 ≤ c.crowdSize ∧ c.crowdSize ≤ 10) ∧
  (1 ≤ c.noiseLevel ∧ c.noiseLevel ≤ 10) ∧
  (1 ≤ c.socialEnergy ∧ c.socialEnergy ≤ 10) ∧
  (1 ≤ c.service ∧ c.service ≤ 10) ∧
  (1 ≤ c.atmosphere ∧ c.atmosphere ≤ 10)

instance (c : RatingCategory) : Decidable (InRange c) := by
  unfold InRange; infer_instance

/-- Embedding of `RatingService.adjustCategoriesForPersonality`: for a
strong introvert (adjustment factor ≤ -0.2) the three personality-sensitive
categories are inverted via `11 - value`; otherwise the categories are
returned unchanged. -/
def adjustCategoriesForPersonality (categories : RatingCategory)
    (adjustmentFactor : ℚ) : RatingCategory :=
  if adjustmentFactor ≤ -0.2 then
    { categories with
      crowdSize := 11 - categories.crowdSize
      noiseLevel := 11 - categories.noiseLevel
      socialEnergy := 11 - categories.socialEnergy }
  else
    categories

/-- Embedding of `RatingService.normalizeCategoriesToObjective`: the same
inversion rule, keyed on the rater's adjustment factor. -/
def normalizeCategoriesToObjective (categories : RatingCategory)
    (raterAdjustmentFactor : ℚ) : RatingCategory :=
  if raterAdjustmentFactor ≤ -0.2 then
    { categories with
      crowdSize := 11 - categories.crowdSize
      noiseLevel := 11 - categories.noiseLevel
      socialEnergy := 11 - categories.socialEnergy }
  else
    categories

/-- Embedding of `RatingService.adjustCategoriesForViewer`, which simply
delegates to `adjustCategoriesForPersonality` with the viewer's factor. -/
def adjustCategoriesForViewer (normalizedCategories : RatingCategory)
    (viewerAdjustmentFactor : ℚ) : RatingCategory :=
  adjustCategoriesForPersonality normalizedCategories viewerAdjustmentFactor

/-- Embedding of `RatingService.calculateOverallScore`: personality-adjust
the categories for the rater, take the fixed weighted sum (weights 0.15 /
0.15 / 0.25 / 0.2 / 0.25 in the source's summation order), and round to
one decimal. -/
def calculateOverallScore (categories : RatingCategory)
    (raterAdjustmentFactor : ℚ) : ℚ :=
  let adjustedCategories :=
    adjustCategoriesForPersonality categories raterAdjustmentFactor
  let weighted :=
    adjustedCategories.crowdSize * 0.15 +
    adjustedCategories.noiseLevel * 0.15 +
    adjustedCategories.socialEnergy * 0.25 +
    adjustedCategories.service * 0.2 +
    adjustedCategories.atmosphere * 0.25
  round1 weighted

/-- Embedding of `RatingService.calculateAdjustedScoreForViewer`:
normalize to objective using the rater's factor, adjust for the viewer,
then take the weighted sum with adjustment factor 0. -/
def calculateAdjustedScoreForViewer (ratingCategories : RatingCategory)
    (raterAdjustmentFactor viewerAdjustmentFactor : ℚ) : ℚ :=
  let normalized :=
    normalizeCategoriesToObjective ratingCategories raterAdjustmentFactor
  let adjusted := adjustCategoriesForViewer normalized viewerAdjustmentFactor
  calculateOverallScore adjusted 0

/-- The two inversions keyed on the same adjustment factor cancel exactly,
for arbitrary category values. -/
theorem adjustForPersonality_normalizeToObjective (c : RatingCategory)
    (af : ℚ) :
    adjustCategoriesForPersonality (normalizeCategoriesToObjective c af) af
      = c := by
  cases c
  by_cases h : af ≤ -0.2 <;>
    simp [normalizeCategoriesToObjective, adjustCategoriesForPersonality, h]

/-- The personality adjustment maps in-range categories to in-range
categories: `11 - v ∈ [1,10]` whenever `v ∈ [1,10]`. -/
theorem adjustCategoriesForPersonality_inRange {c : RatingCategory}
    (hc : InRange c) (af : ℚ) :
    InRange (adjustCategoriesForPersonality c af) := by
  obtain ⟨hc1, hc2, hc3, hc4, hc5⟩ := hc
  unfold adjustCategoriesForPersonality InRange
  by_cases h : af ≤ -0.2 <;>
    simp only [h, if_true, if_false] <;>
    refine ⟨⟨?_, ?_⟩, ⟨?_, ?_⟩, ⟨?_, ?_⟩, ⟨?_, ?_⟩, ⟨?_, ?_⟩⟩ <;>
    dsimp only <;>
    linarith [hc1.1, hc1.2, hc2.1, hc2.2, hc3.1, hc3.2, hc4.1, hc4.2,
      hc5.1, hc5.2]

/-- Rounding to one decimal keeps values of [1,10] inside [1,10]. -/
theorem round1_mem_of_mem {q : ℚ} (h1 : 1 ≤ q) (h10 : q ≤ 10) :
    1 ≤ round1 q ∧ round1 q ≤ 10 := by
  have hlo : (10 : ℤ) ≤ jround (q * 10) := by
    rw [jround, Int.le_floor]
    push_cast
    linarith
  have hhi : jround (q * 10) ≤ 100 := by
    have : jround (q * 10) < 101 := by
      rw [jround, Int.floor_lt]
      push_cast
      linarith
    omega
  have hlo' : (10 : ℚ) ≤ (jround (q * 10) : ℚ) := by exact_mod_cast hlo
  have hhi' : (jround (q * 10) : ℚ) ≤ 100 := by exact_mod_cast hhi
  constructor
  · rw [round1, le_div_iff₀ (by norm_num : (0:ℚ) < 10)]
    linarith
  · rw [round1, div_le_iff₀ (by norm_num : (0:ℚ) < 10)]
    linarith

/-- Categories of scenario A/B of the spec:
atmosphere 8, socialEnergy 7, crowdSize 6, noiseLevel 5, service 7. -/
def scenarioCategories : RatingCategory :=
  { crowdSize := 6, noiseLevel := 5, socialEnergy := 7, service := 7,
    atmosphere := 8 }

/-- C1: for every category record with each dimension in [1,10] and every
adjustment factor af, applying normalizeCategoriesToObjective with af and
then adjustCategoriesForViewer with the same af returns exactly the
original categories — the two inversions cancel. -/
theorem c1_normalize_adjust_round_trip (c : RatingCategory) (af : ℚ)
    (hc : InRange c) :
    adjustCategoriesForViewer (normalizeCategoriesToObjective c af) af = c := by
  unfold adjustCategoriesForViewer
  exact adjustForPersonality_normalizeToObjective c af

/-- Witness for c1_normalize_adjust_round_trip at categories (2,3,4,5,6)
and adjustment factor -0.5. -/
theorem c1_normalize_adjust_round_trip_witness :
    InRange ⟨2, 3, 4, 5, 6⟩ ∧
    adjustCategoriesForViewer
        (normalizeCategoriesToObjective ⟨2, 3, 4, 5, 6⟩ (-0.5)) (-0.5)
      = ⟨2, 3, 4, 5, 6⟩ :=
  ⟨by norm_num [InRange],
    c1_normalize_adjust_round_trip ⟨2, 3, 4, 5, 6⟩ (-0.5)
      (by norm_num [InRange])⟩

/-- C7: for every category record whose five dimensions each lie in
[1,10] and every adjustment factor, calculateOverallScore lies in
[1,10]. -/
theorem c7_overallScore_range (c : RatingCategory) (a : ℚ)
    (hc : InRange c) :
    1 ≤ calculateOverallScore c a ∧ calculateOverallScore c a ≤ 10 := by
  obtain ⟨h1, h2, h3, h4, h5⟩ := adjustCategoriesForPersonality_inRange hc a
  unfold calculateOverallScore
  dsimp only
  exact round1_mem_of_mem (by linarith) (by linarith)

/-- Witness for c7_overallScore_range at the scenario categories with
adjustment factor -0.5. -/
theorem c7_overallScore_range_witness :
    InRange scenarioCategories ∧
    1 ≤ calculateOverallScore scenarioCategories (-0.5) ∧
    calculateOverallScore scenarioCategories (-0.5) ≤ 10 :=
  ⟨by norm_num [InRange, scenarioCategories],
    c7_overallScore_range scenarioCategories (-0.5)
      (by norm_num [InRange, scenarioCategories])⟩

/-- C8 counterexample: with raterAF = -0.5 the claimed overall score 6.05
is not what calculateOverallScore returns (the weighted sum 6.05 is
rounded to one decimal, yielding 6.1). -/
theorem c8_scenarioB_score_ne :
    calculateOverallScore scenarioCategories (-0.5) ≠ 6.05 := by
  norm_num [calculateOverallScore, adjustCategoriesForPersonality,
    scenarioCategories, round1, jround]

/-- C8 amended: scenario A (raterAF = 0) yields 6.8; scenario B
(raterAF = -0.5) yields the adjusted personality-sensitive values
crowdSize 5, noiseLevel 6, socialEnergy 4 and an overall score of 6.1
(the weighted sum 6.05 rounded to one decimal, half away from zero). -/
theorem c8_scenario_scores :
    calculateOverallScore scenarioCategories 0 = 6.8 ∧
    adjustCategoriesForPersonality scenarioCategories (-0.5) =
      { crowdSize := 5, noiseLevel := 6, socialEnergy := 4, service := 7,
        atmosphere := 8 } ∧
    calculateOverallScore scenarioCategories (-0.5) = 6.1 := by
  refine ⟨?_, ?_, ?_⟩ <;>
    norm_num [calculateOverallScore, adjustCategoriesForPersonality,
      scenarioCategories, round1, jround, RatingCategory.mk.injEq]

/-- C10: a rater viewing their own rating gets the neutral weighted sum:
calculateAdjustedScoreForViewer c a a = calculateOverallScore c 0 for all
c and a; consequently, for an introvert rater (here a = -0.5 ≤ -0.2) the
viewer-adjusted score of their own rating differs from the stored
overallScore calculateOverallScore c a. -/
theorem c10_self_view_is_neutral :
    (∀ (c : RatingCategory) (a : ℚ),
        calculateAdjustedScoreForViewer c a a = calculateOverallScore c 0) ∧
    calculateAdjustedScoreForViewer scenarioCategories (-0.5) (-0.5) ≠
      calculateOverallScore scenarioCategories (-0.5) := by
  have key : ∀ (c : RatingCategory) (a : ℚ),
      calculateAdjustedScoreForViewer c a a = calculateOverallScore c 0 := by
    intro c a
    unfold calculateAdjustedScoreForViewer adjustCategoriesForViewer
    dsimp only
    rw [adjustForPersonality_normalizeToObjective]
  refine ⟨key, ?_⟩
  rw [key]
  norm_num [calculateOverallScore, adjustCategoriesForPersonality,
    scenarioCategories, round1, jround]

/-! ### Keyed document collections

Firestore collections are modelled as association lists from document id
to document, with unique keys.  `lookupDoc` is a `get`, `setDoc` a
`set` (create or overwrite), `deleteDoc` a `delete`. -/

/-- Document identifier of a Firestore document. -/
abbrev DocId := String

/-- Reading a document by id. -/
def lookupDoc {α : Type} (docs : List (DocId × α)) (id : DocId) : Option α :=
  (docs.find? (fun d => decide (d.1 = id))).map (·.2)

/-- Deleting a document by id. -/
def deleteDoc {α : Type} (docs : List (DocId × α)) (id : DocId) :
    List (DocId × α) :=
  docs.filter (fun d => decide (d.1 ≠ id))

/-- Creating or overwriting a document by id. -/
def setDoc {α : Type} (docs : List (DocId × α)) (id : DocId) (a : α) :
    List (DocId × α) :=
  (id, a) :: deleteDoc docs id

/-- Latitude/longitude pair. -/
structure LatLng where
  lat : ℚ
  lng : ℚ
deriving DecidableEq, Repr

/-- Rating document (types.ts `Rating`); timestamps omitted. -/
structure Rating where
  userId : String
  placeId : String
  placeName : String
  placeAddress : String
  location : LatLng
  categories : RatingCategory
  overallScore : ℚ
  comment : String
  userAdjustmentFactor : ℚ
  userPersonalityType : String
deriving DecidableEq, Repr

/-- Personality bucket of a rater. -/
inductive PersonalityBucket
  | introvert
  | ambivert
  | extrovert
deriving DecidableEq, Repr

/-- Embedding of `RatingService.getPersonalityBucket`. -/
def getPersonalityBucket (adjustmentFactor : ℚ) : PersonalityBucket :=
  if adjustmentFactor ≤ -0.2 then .introvert
  else if adjustmentFactor ≥ 0.2 then .extrovert
  else .ambivert

/-- Per-bucket aggregate of `PlaceStats.byPersonality`. -/
structure PersonalityBucketStats where
  avgScore : ℚ
  count : ℕ
deriving DecidableEq, Repr

/-- The three per-bucket aggregates of `PlaceStats.byPersonality`. -/
structure ByPersonality where
  introvert : PersonalityBucketStats
  ambivert : PersonalityBucketStats
  extrovert : PersonalityBucketStats
deriving DecidableEq, Repr

/-- Aggregate statistics of a place (types.ts `PlaceStats`);
`lastRatedAt` (a wall-clock timestamp) omitted. -/
structure PlaceStats where
  totalRatings : ℕ
  avgOverallScore : ℚ
  byPersonality : ByPersonality
  avgCategories : RatingCategory
deriving DecidableEq, Repr

/-- Place document (types.ts `Place`); timestamps omitted. -/
structure Place where
  name : String
  address : String
  location : LatLng
  stats : PlaceStats
deriving DecidableEq, Repr

/-- Aggregate of one personality bucket: the source's forEach
accumulation over the ratings whose rater falls in the bucket, expressed
as filter/sum; buckets with count 0 keep avgScore 0. -/
def bucketStats (ratings : List Rating) (b : PersonalityBucket) :
    PersonalityBucketStats :=
  let rs := ratings.filter
    (fun r => decide (getPersonalityBucket r.userAdjustmentFactor = b))
  if 0 < rs.length then
    { avgScore := round1 ((rs.map (·.overallScore)).sum / rs.length),
      count := rs.length }
  else
    { avgScore := 0, count := 0 }

/-- Embedding of `RatingService.calculatePlaceStats`: recompute the full
aggregate from the current list of ratings of the place. -/
def calculatePlaceStats (ratings : List Rating) : PlaceStats :=
  if ratings.length = 0 then
    { totalRatings := 0, avgOverallScore := 0,
      byPersonality := ⟨⟨0, 0⟩, ⟨0, 0⟩, ⟨0, 0⟩⟩,
      avgCategories := ⟨0, 0, 0, 0, 0⟩ }
  else
    { totalRatings := ratings.length,
      avgOverallScore :=
        round1 ((ratings.map (·.overallScore)).sum / ratings.length),
      byPersonality :=
        { introvert := bucketStats ratings .introvert,
          ambivert := bucketStats ratings .ambivert,
          extrovert := bucketStats ratings .extrovert },
      avgCategories :=
        { crowdSize :=
            round1 ((ratings.map (·.categories.crowdSize)).sum /
              ratings.length),
          noiseLevel :=
            round1 ((ratings.map (·.categories.noiseLevel)).sum /
              ratings.length),
          socialEnergy :=
            round1 ((ratings.map (·.categories.socialEnergy)).sum /
              ratings.length),
          service :=
            round1 ((ratings.map (·.categories.service)).sum /
              ratings.length),
          atmosphere :=
            round1 ((ratings.map (·.categories.atmosphere)).sum /
              ratings.length) } }

/-- State of the ratings and places collections. -/
structure Store where
  ratings : List (DocId × Rating)
  places : List (DocId × Place)
deriving DecidableEq, Repr

/-- Query underlying `getPlaceRatings`: the ratings among the documents
that reference the given place. -/
def ratingsOf (docs : List (DocId × Rating)) (placeId : String) :
    List Rating :=
  (docs.filter (fun d => decide (d.2.placeId = placeId))).map (·.2)

/-- Embedding of `RatingService.getPlaceRatings`: all ratings referencing
the place. -/
def getPlaceRatings (st : Store) (placeId : String) : List Rating :=
  ratingsOf st.ratings placeId

/-- Embedding of `RatingService.updatePlaceStats`: recompute the stats of
the place from its current full rating set; create the place document if
it does not exist yet, otherwise update its stats field. -/
def updatePlaceStats (st : Store) (placeId placeName placeAddress : String)
    (location : LatLng) : Store :=
  let ratings := getPlaceRatings st placeId
  let stats := calculatePlaceStats ratings
  match lookupDoc st.places placeId with
  | none =>
      { st with
        places := setDoc st.places placeId
          { name := placeName, address := placeAddress,
            location := location, stats := stats } }
  | some place =>
      { st with
        places := setDoc st.places placeId { place with stats := stats } }

/-- Embedding of `RatingService.createRating`: store the new rating under
a fresh document id, with the overall score derived from the rater's
adjustment factor, then recompute the place's stats (the per-user stats
update and the Algolia sync have no bearing on the ratings/places
collections and are omitted). -/
def createRating (st : Store) (ratingId : DocId)
    (userId placeId placeName placeAddress : String) (location : LatLng)
    (categories : RatingCategory) (comment : String)
    (userAdjustmentFactor : ℚ) (userPersonalityType : String) : Store :=
  let overallScore := calculateOverallScore categories userAdjustmentFactor
  let rating : Rating :=
    { userId := userId, placeId := placeId, placeName := placeName,
      placeAddress := placeAddress, location := location,
      categories := categories, overallScore := overallScore,
      comment := comment, userAdjustmentFactor := userAdjustmentFactor,
      userPersonalityType := userPersonalityType }
  let st1 := { st with ratings := setDoc st.ratings ratingId rating }
  updatePlaceStats st1 placeId placeName placeAddress location

/-- Partial update to a rating.  The service accepts a Partial of the
Rating document; the fields the application edits are the categories and
the comment (an edit with changed categories recomputes overallScore from
the rating's immutable rater adjustment factor). -/
structure RatingUpdates where
  categories : Option RatingCategory
  comment : Option String
deriving DecidableEq, Repr

/-- Embedding of `RatingService.updateRating`: missing ratings are an
error; changed categories recompute overallScore and trigger a full
recomputation of the place stats; other updates only touch the rating
document. -/
def updateRating (st : Store) (ratingId : DocId) (updates : RatingUpdates) :
    Except String Store :=
  match lookupDoc st.ratings ratingId with
  | none => .error "Rating not found"
  | some oldRating =>
      let newRating : Rating :=
        { oldRating with
          categories := updates.categories.getD oldRating.categories
          overallScore :=
            match updates.categories with
            | some cats =>
                calculateOverallScore cats oldRating.userAdjustmentFactor
            | none => oldRating.overallScore
          comment := updates.comment.getD oldRating.comment }
      let st1 := { st with ratings := setDoc st.ratings ratingId newRating }
      if updates.categories.isSome then
        .ok (updatePlaceStats st1 oldRating.placeId oldRating.placeName
          oldRating.placeAddress oldRating.location)
      else
        .ok st1

/-- Embedding of `RatingService.recalculatePlaceStats`: if no rating for
the place remains, delete the place document entirely (the source
swallows delete errors); otherwise update the stored stats — the
Firestore `update` fails if the place document is missing. -/
def recalculatePlaceStats (st : Store) (placeId : String) :
    Except String Store :=
  let ratings := getPlaceRatings st placeId
  if ratings.length = 0 then
    .ok { st with places := deleteDoc st.places placeId }
  else
    match lookupDoc st.places placeId with
    | none => .error "No document to update"
    | some place =>
        .ok { st with
          places := setDoc st.places placeId
            { place with stats := calculatePlaceStats ratings } }

/-- Embedding of `RatingService.deleteRating`: missing ratings are an
error; otherwise delete the rating document and recompute the place's
stats from the remaining ratings. -/
def deleteRating (st : Store) (ratingId : DocId) : Except String Store :=
  match lookupDoc st.ratings ratingId with
  | none => .error "Rating not found"
  | some rating =>
      let st1 := { st with ratings := deleteDoc st.ratings ratingId }
      recalculatePlaceStats st1 rating.placeId

/-- Well-formedness: document ids are unique within each collection. -/
def WfStore (st : Store) : Prop :=
  (st.ratings.map (·.1)).Nodup ∧ (st.places.map (·.1)).Nodup

/-- The aggregate invariant of the claim: a place document exists iff the
set of ratings referencing the place is non-empty, and a stored aggregate
always equals the recomputation from the current full rating set. -/
def PlacesInv (st : Store) : Prop :=
  ∀ p : String,
    ((lookupDoc st.places p).isSome ↔ getPlaceRatings st p ≠ []) ∧
    (∀ place, lookupDoc st.places p = some place →
      place.stats = calculatePlaceStats (getPlaceRatings st p))

/-- Full store invariant. -/
def StoreInv (st : Store) : Prop := WfStore st ∧ PlacesInv st

theorem lookupDoc_cons_eq {α : Type} (d : DocId × α)
    (rest : List (DocId × α)) (id : DocId) (h : d.1 = id) :
    lookupDoc (d :: rest) id = some d.2 := by
  simp [lookupDoc, List.find?_cons, h]

theorem lookupDoc_cons_ne {α : Type} (d : DocId × α)
    (rest : List (DocId × α)) (id : DocId) (h : ¬ d.1 = id) :
    lookupDoc (d :: rest) id = lookupDoc rest id := by
  simp [lookupDoc, List.find?_cons, h]

theorem deleteDoc_cons_eq {α : Type} (d : DocId × α)
    (rest : List (DocId × α)) (id : DocId) (h : d.1 = id) :
    deleteDoc (d :: rest) id = deleteDoc rest id := by
  simp [deleteDoc, List.filter_cons, h]

theorem deleteDoc_cons_ne {α : Type} (d : DocId × α)
    (rest : List (DocId × α)) (id : DocId) (h : ¬ d.1 = id) :
    deleteDoc (d :: rest) id = d :: deleteDoc rest id := by
  simp [deleteDoc, List.filter_cons, h]

theorem lookupDoc_deleteDoc_self {α : Type} (docs : List (DocId × α))
    (id : DocId) : lookupDoc (deleteDoc docs id) id = none := by
  induction docs with
  | nil => rfl
  | cons d rest ih =>
      by_cases h : d.1 = id
      · rw [deleteDoc_cons_eq d rest id h]; exact ih
      · rw [deleteDoc_cons_ne d rest id h, lookupDoc_cons_ne d _ id h]
        exact ih

theorem lookupDoc_deleteDoc_other {α : Type} (docs : List (DocId × α))
    (id p : DocId) (h : p ≠ id) :
    lookupDoc (deleteDoc docs id) p = lookupDoc docs p := by
  induction docs with
  | nil => rfl
  | cons d rest ih =>
      by_cases h1 : d.1 = id
      · have h2 : ¬ d.1 = p := by rw [h1]; exact fun hh => h hh.symm
        rw [deleteDoc_cons_eq d rest id h1, lookupDoc_cons_ne d rest p h2]
        exact ih
      · rw [deleteDoc_cons_ne d rest id h1]
        by_cases h2 : d.1 = p
        · rw [lookupDoc_cons_eq _ _ p h2, lookupDoc_cons_eq d rest p h2]
        · rw [lookupDoc_cons_ne _ _ p h2, lookupDoc_cons_ne d rest p h2]
          exact ih

theorem lookupDoc_setDoc_self {α : Type} (docs : List (DocId × α))
    (id : DocId) (a : α) : lookupDoc (setDoc docs id a) id = some a := by
  rw [setDoc]
  exact lookupDoc_cons_eq (id, a) _ id rfl

theorem lookupDoc_setDoc_other {α : Type} (docs : List (DocId × α))
    (id p : DocId) (a : α) (h : p ≠ id) :
    lookupDoc (setDoc docs id a) p = lookupDoc docs p := by
  rw [setDoc, lookupDoc_cons_ne (id, a) _ p (fun hh => h hh.symm)]
  exact lookupDoc_deleteDoc_other docs id p h

theorem deleteDoc_of_lookup_none {α : Type} (docs : List (DocId × α))
    (id : DocId) (h : lookupDoc docs id = none) :
    deleteDoc docs id = docs := by
  induction docs with
  | nil => rfl
  | cons d rest ih =>
      by_cases h1 : d.1 = id
      · rw [lookupDoc_cons_eq d rest id h1] at h; exact absurd h (by simp)
      · rw [lookupDoc_cons_ne d rest id h1] at h
        rw [deleteDoc_cons_ne d rest id h1, ih h]

theorem keys_deleteDoc_nodup {α : Type} (docs : List (DocId × α))
    (id : DocId) (h : (docs.map (·.1)).Nodup) :
    ((deleteDoc docs id).map (·.1)).Nodup := by
  have hsub : List.Sublist (deleteDoc docs id) docs :=
    List.filter_sublist docs
  exact (hsub.map (·.1)).nodup h

theorem not_mem_keys_deleteDoc {α : Type} (docs : List (DocId × α))
    (id : DocId) : id ∉ (deleteDoc docs id).map (·.1) := by
  intro hmem
  obtain ⟨d, hd, hd1⟩ := List.mem_map.mp hmem
  have := List.of_mem_filter hd
  simp [hd1] at this

theorem keys_setDoc_nodup {α : Type} (docs : List (DocId × α))
    (id : DocId) (a : α) (h : (docs.map (·.1)).Nodup) :
    ((setDoc docs id a).map (·.1)).Nodup := by
  rw [setDoc, List.map_cons, List.nodup_cons]
  exact ⟨not_mem_keys_deleteDoc docs id, keys_deleteDoc_nodup docs id h⟩

theorem lookup_none_of_not_mem_keys {α : Type} (docs : List (DocId × α))
    (id : DocId) (h : id ∉ docs.map (·.1)) : lookupDoc docs id = none := by
  induction docs with
  | nil => rfl
  | cons d rest ih =>
      simp only [List.map_cons, List.mem_cons, not_or] at h
      rw [lookupDoc_cons_ne d rest id (fun hh => h.1 hh.symm)]
      exact ih h.2

/-- With unique keys, a collection is a permutation of its looked-up
entry consed onto the collection with that entry deleted. -/
theorem perm_cons_deleteDoc {α : Type} (docs : List (DocId × α))
    (id : DocId) (a : α) (hnd : (docs.map (·.1)).Nodup)
    (hl : lookupDoc docs id = some a) :
    docs.Perm ((id, a) :: deleteDoc docs id) := by
  induction docs with
  | nil => simp [lookupDoc] at hl
  | cons d rest ih =>
      rw [List.map_cons, List.nodup_cons] at hnd
      by_cases h1 : d.1 = id
      · have hda : d = (id, a) := by
          rw [lookupDoc_cons_eq d rest id h1] at hl
          obtain ⟨d1, d2⟩ := d
          simp only [Option.some.injEq] at hl
          simp_all

        have hrest : deleteDoc rest id = rest := by
          apply deleteDoc_of_lookup_none
          apply lookup_none_of_not_mem_keys
          rw [← h1]; exact hnd.1
        rw [hda, deleteDoc_cons_eq (id, a) rest id rfl, hrest]
      · rw [lookupDoc_cons_ne d rest id h1] at hl
        have hperm := ih hnd.2 hl
        rw [deleteDoc_cons_ne d rest id h1]
        exact (hperm.cons d).trans (List.Perm.swap _ _ _)

theorem ratingsOf_perm {docs docs' : List (DocId × Rating)}
    (h : docs.Perm docs') (p : String) :
    (ratingsOf docs p).Perm (ratingsOf docs' p) :=
  (h.filter _).map _

theorem ratingsOf_cons_of_eq (d : DocId × Rating) (docs) (p : String)
    (h : d.2.placeId = p) :
    ratingsOf (d :: docs) p = d.2 :: ratingsOf docs p := by
  simp [ratingsOf, List.filter_cons, h]

theorem ratingsOf_cons_of_ne (d : DocId × Rating) (docs) (p : String)
    (h : ¬ d.2.placeId = p) :
    ratingsOf (d :: docs) p = ratingsOf docs p := by
  simp [ratingsOf, List.filter_cons, h]

/-- Deleting a rating that references a different place leaves the
place's rating set unchanged (keys unique). -/
theorem ratingsOf_deleteDoc_other (docs : List (DocId × Rating))
    (id : DocId) (r : Rating) (p : String)
    (hnd : (docs.map (·.1)).Nodup) (hl : lookupDoc docs id = some r)
    (hp : r.placeId ≠ p) :
    ratingsOf (deleteDoc docs id) p = ratingsOf docs p := by
  induction docs with
  | nil => simp [lookupDoc] at hl
  | cons d rest ih =>
      rw [List.map_cons, List.nodup_cons] at hnd
      by_cases h1 : d.1 = id
      · have hda : d.2 = r := by
          rw [lookupDoc_cons_eq d rest id h1] at hl
          simpa using hl
        have hrest : deleteDoc rest id = rest := by
          apply deleteDoc_of_lookup_none
          apply lookup_none_of_not_mem_keys
          rw [← h1]; exact hnd.1
        have hdp : ¬ d.2.placeId = p := by rw [hda]; exact hp
        rw [deleteDoc_cons_eq d rest id h1, hrest,
          ratingsOf_cons_of_ne d rest p hdp]
      · rw [lookupDoc_cons_ne d rest id h1] at hl
        have heq := ih hnd.2 hl
        rw [deleteDoc_cons_ne d rest id h1]
        by_cases h2 : d.2.placeId = p
        · rw [ratingsOf_cons_of_eq d _ p h2, ratingsOf_cons_of_eq d _ p h2,
            heq]
        · rw [ratingsOf_cons_of_ne d _ p h2, ratingsOf_cons_of_ne d _ p h2,
            heq]

theorem bucketStats_perm {l l' : List Rating} (h : l.Perm l')
    (b : PersonalityBucket) : bucketStats l b = bucketStats l' b := by
  simp only [bucketStats]
  have hf := h.filter
    (fun r => decide (getPersonalityBucket r.userAdjustmentFactor = b))
  rw [hf.length_eq, (hf.map (·.overallScore)).sum_eq]

theorem calculatePlaceStats_perm {l l' : List Rating} (h : l.Perm l') :
    calculatePlaceStats l = calculatePlaceStats l' := by
  unfold calculatePlaceStats
  rw [h.length_eq, (h.map (·.overallScore)).sum_eq,
    (h.map (·.categories.crowdSize)).sum_eq,
    (h.map (·.categories.noiseLevel)).sum_eq,
    (h.map (·.categories.socialEnergy)).sum_eq,
    (h.map (·.categories.service)).sum_eq,
    (h.map (·.categories.atmosphere)).sum_eq,
    bucketStats_perm h .introvert, bucketStats_perm h .ambivert,
    bucketStats_perm h .extrovert]

theorem bucketStats_cons_congr (r r' : Rating) (l : List Rating)
    (b : PersonalityBucket)
    (h1 : r.userAdjustmentFactor = r'.userAdjustmentFactor)
    (h2 : r.overallScore = r'.overallScore) :
    bucketStats (r :: l) b = bucketStats (r' :: l) b := by
  simp only [bucketStats, List.filter_cons, h1]
  by_cases hb : getPersonalityBucket r'.userAdjustmentFactor = b <;>
    simp [hb, h2]

/-- The aggregate reads only the rating's adjustment factor, overall
score and categories, not its other fields. -/
theorem calculatePlaceStats_cons_congr (r r' : Rating) (l : List Rating)
    (h1 : r.userAdjustmentFactor = r'.userAdjustmentFactor)
    (h2 : r.overallScore = r'.overallScore)
    (h3 : r.categories = r'.categories) :
    calculatePlaceStats (r :: l) = calculatePlaceStats (r' :: l) := by
  unfold calculatePlaceStats
  rw [bucketStats_cons_congr r r' l .introvert h1 h2,
    bucketStats_cons_congr r r' l .ambivert h1 h2,
    bucketStats_cons_congr r r' l .extrovert h1 h2]
  simp only [List.length_cons, List.map_cons, List.sum_cons, h2, h3]

theorem updatePlaceStats_ratings (st : Store) (pid pn pa : String)
    (loc : LatLng) :
    (updatePlaceStats st pid pn pa loc).ratings = st.ratings := by
  unfold updatePlaceStats
  cases lookupDoc st.places pid <;> rfl

theorem updatePlaceStats_places (st : Store) (pid pn pa : String)
    (loc : LatLng) :
    ∃ pl : Place,
      (updatePlaceStats st pid pn pa loc).places = setDoc st.places pid pl ∧
      pl.stats = calculatePlaceStats (getPlaceRatings st pid) := by
  unfold updatePlaceStats
  cases lookupDoc st.places pid with
  | none => exact ⟨_, rfl, rfl⟩
  | some place => exact ⟨_, rfl, rfl⟩

/-- Recomputing a place's stats establishes the invariant there, provided
it held at all other places and the place's rating set is non-empty. -/
theorem storeInv_updatePlaceStats (st : Store) (pid pn pa : String)
    (loc : LatLng) (hw : WfStore st)
    (hprev : ∀ p, p ≠ pid →
      ((lookupDoc st.places p).isSome ↔ getPlaceRatings st p ≠ []) ∧
      (∀ pl, lookupDoc st.places p = some pl →
        pl.stats = calculatePlaceStats (getPlaceRatings st p)))
    (hne : getPlaceRatings st pid ≠ []) :
    StoreInv (updatePlaceStats st pid pn pa loc) := by
  obtain ⟨pl, hpl, hst⟩ := updatePlaceStats_places st pid pn pa loc
  have hrat : ∀ p, getPlaceRatings (updatePlaceStats st pid pn pa loc) p
      = getPlaceRatings st p := by
    intro p
    unfold getPlaceRatings
    rw [updatePlaceStats_ratings]
  constructor
  · exact ⟨by rw [updatePlaceStats_ratings]; exact hw.1,
      by rw [hpl]; exact keys_setDoc_nodup _ _ _ hw.2⟩
  · intro p
    by_cases hp : p = pid
    · subst hp
      rw [hpl, hrat, lookupDoc_setDoc_self]
      refine ⟨by simpa using hne, ?_⟩
      intro pl' hpl'
      obtain rfl : pl = pl' := by simpa using hpl'
      exact hst
    · rw [hpl, hrat, lookupDoc_setDoc_other _ _ _ _ hp]
      exact hprev p hp

/-- Creating a rating under a fresh document id preserves the aggregate
invariant. -/
theorem storeInv_createRating (st : Store) (h : StoreInv st)
    (rid : DocId) (uid pid pn pa : String) (loc : LatLng)
    (cats : RatingCategory) (cm : String) (af : ℚ) (pt : String)
    (hfresh : lookupDoc st.ratings rid = none) :
    StoreInv (createRating st rid uid pid pn pa loc cats cm af pt) := by
  obtain ⟨hw, hinv⟩ := h
  unfold createRating
  dsimp only
  have hdel : deleteDoc st.ratings rid = st.ratings :=
    deleteDoc_of_lookup_none _ _ hfresh
  apply storeInv_updatePlaceStats
  · exact ⟨keys_setDoc_nodup _ _ _ hw.1, hw.2⟩
  · intro p hp
    have hr : ratingsOf (setDoc st.ratings rid
        { userId := uid, placeId := pid, placeName := pn,
          placeAddress := pa, location := loc, categories := cats,
          overallScore := calculateOverallScore cats af, comment := cm,
          userAdjustmentFactor := af, userPersonalityType := pt }) p
        = ratingsOf st.ratings p := by
      rw [setDoc, hdel]
      exact ratingsOf_cons_of_ne _ _ _ (fun hh => hp (by simpa using hh.symm))
    constructor
    · simp only [getPlaceRatings]
      rw [hr]
      exact (hinv p).1
    · intro pl hpl
      simp only [getPlaceRatings]
      rw [hr]
      exact (hinv p).2 pl hpl
  · simp only [getPlaceRatings]
    rw [setDoc, ratingsOf_cons_of_eq _ _ _ rfl]
    exact List.cons_ne_nil _ _

/-- Editing a rating preserves the aggregate invariant. -/
theorem storeInv_updateRating (st : Store) (h : StoreInv st) (rid : DocId)
    (u : RatingUpdates) (st' : Store)
    (hok : updateRating st rid u = .ok st') : StoreInv st' := by
  obtain ⟨hw, hinv⟩ := h
  unfold updateRating at hok
  cases hl : lookupDoc st.ratings rid with
  | none => rw [hl] at hok; exact absurd hok (by simp)
  | some oldR =>
      rw [hl] at hok
      dsimp only at hok
      cases hcats : u.categories with
      | some cats =>
          rw [hcats] at hok
          simp only [Option.isSome_some, if_true, Option.getD_some] at hok
          obtain rfl := (Except.ok.injEq _ _).mp hok
          set newR : Rating :=
            { oldR with
              categories := cats,
              overallScore :=
                calculateOverallScore cats oldR.userAdjustmentFactor,
              comment := u.comment.getD oldR.comment } with hnewR
          apply storeInv_updatePlaceStats
          · exact ⟨keys_setDoc_nodup _ _ _ hw.1, hw.2⟩
          · intro p hp
            have hr : ratingsOf (setDoc st.ratings rid newR) p
                = ratingsOf st.ratings p := by
              rw [setDoc,
                ratingsOf_cons_of_ne _ _ _ (fun hh => hp (by simpa using hh.symm)),
                ratingsOf_deleteDoc_other st.ratings rid oldR p hw.1 hl
                  (fun hh => hp hh.symm)]
            constructor
            · simp only [getPlaceRatings]
              rw [hr]
              exact (hinv p).1
            · intro pl hpl
              simp only [getPlaceRatings]
              rw [hr]
              exact (hinv p).2 pl hpl
          · simp only [getPlaceRatings]
            rw [setDoc, ratingsOf_cons_of_eq _ _ _ rfl]
            exact List.cons_ne_nil _ _
      | none =>
          rw [hcats] at hok
          simp only [Option.isSome_none, Bool.false_eq_true, if_false,
            Option.getD_none] at hok
          obtain rfl := (Except.ok.injEq _ _).mp hok
          set newR : Rating :=
            { oldR with
              categories := oldR.categories,
              overallScore := oldR.overallScore,
              comment := u.comment.getD oldR.comment } with hnewR
          have hperm : st.ratings.Perm ((rid, oldR) :: deleteDoc st.ratings rid) :=
            perm_cons_deleteDoc st.ratings rid oldR hw.1 hl
          constructor
          · exact ⟨keys_setDoc_nodup _ _ _ hw.1, hw.2⟩
          · intro p
            by_cases hp : p = oldR.placeId
            · subst hp
              have hnew : ratingsOf (setDoc st.ratings rid newR) oldR.placeId
                  = newR :: ratingsOf (deleteDoc st.ratings rid) oldR.placeId := by
                rw [setDoc, ratingsOf_cons_of_eq _ _ _ rfl]
              have hold : (ratingsOf st.ratings oldR.placeId).Perm
                  (oldR :: ratingsOf (deleteDoc st.ratings rid) oldR.placeId) := by
                have := ratingsOf_perm hperm oldR.placeId
                rwa [ratingsOf_cons_of_eq _ _ _ rfl] at this
              have hcalc :
                  calculatePlaceStats (ratingsOf (setDoc st.ratings rid newR) oldR.placeId)
                    = calculatePlaceStats (ratingsOf st.ratings oldR.placeId) := by
                rw [hnew, calculatePlaceStats_cons_congr newR oldR _ rfl rfl rfl]
                exact (calculatePlaceStats_perm hold).symm
              constructor
              · simp only [getPlaceRatings]
                rw [hnew]
                have h1 := (hinv oldR.placeId).1
                simp only [getPlaceRatings] at h1
                rw [h1]
                constructor
                · intro _; exact List.cons_ne_nil _ _
                · intro _
                  intro hcontra
                  have : oldR ∈ ratingsOf st.ratings oldR.placeId := by
                    rw [List.Perm.mem_iff hold]
                    exact List.mem_cons_self _ _
                  rw [hcontra] at this
                  exact absurd this (List.not_mem_nil _)
              · intro pl hpl
                simp only [getPlaceRatings]
                rw [hcalc]
                have h2 := (hinv oldR.placeId).2 pl hpl
                simpa [getPlaceRatings] using h2
            · have hr : ratingsOf (setDoc st.ratings rid newR) p
                  = ratingsOf st.ratings p := by
                rw [setDoc,
                  ratingsOf_cons_of_ne _ _ _ (fun hh => hp (by simpa using hh.symm)),
                  ratingsOf_deleteDoc_other st.ratings rid oldR p hw.1 hl
                    (fun hh => hp hh.symm)]
              constructor
              · simp only [getPlaceRatings]
                rw [hr]
                exact (hinv p).1
              · intro pl hpl
                simp only [getPlaceRatings]
                rw [hr]
                exact (hinv p).2 pl hpl

/-- Deleting a rating preserves the aggregate invariant, never fails
when the rating exists, and removes the place document when the deleted
rating was the last one for its place. -/
theorem storeInv_deleteRating (st : Store) (h : StoreInv st) (rid : DocId)
    (st' : Store) (hok : deleteRating st rid = .ok st') : StoreInv st' := by
  obtain ⟨hw, hinv⟩ := h
  unfold deleteRating at hok
  cases hl : lookupDoc st.ratings rid with
  | none => rw [hl] at hok; exact absurd hok (by simp)
  | some r =>
      rw [hl] at hok
      dsimp only at hok
      unfold recalculatePlaceStats at hok
      dsimp only at hok
      have hrother : ∀ p, p ≠ r.placeId →
          ratingsOf (deleteDoc st.ratings rid) p = ratingsOf st.ratings p := by
        intro p hp
        exact ratingsOf_deleteDoc_other st.ratings rid r p hw.1 hl
          (fun hh => hp hh.symm)
      by_cases hemp : (ratingsOf (deleteDoc st.ratings rid) r.placeId).length = 0
      · rw [if_pos (by simpa [getPlaceRatings] using hemp)] at hok
        obtain rfl := (Except.ok.injEq _ _).mp hok
        constructor
        · exact ⟨keys_deleteDoc_nodup _ _ hw.1, keys_deleteDoc_nodup _ _ hw.2⟩
        · intro p
          by_cases hp : p = r.placeId
          · subst hp
            rw [show lookupDoc (deleteDoc st.places r.placeId) r.placeId = none
                from lookupDoc_deleteDoc_self _ _]
            constructor
            · simp only [getPlaceRatings]
              rw [List.length_eq_zero] at hemp
              simp [hemp]
            · intro pl hpl; exact absurd hpl (by simp)
          · rw [lookupDoc_deleteDoc_other _ _ _ hp]
            constructor
            · simp only [getPlaceRatings]
              rw [hrother p hp]
              exact (hinv p).1
            · intro pl hpl
              simp only [getPlaceRatings]
              rw [hrother p hp]
              exact (hinv p).2 pl hpl
      · rw [if_neg (by simpa [getPlaceRatings] using hemp)] at hok
        cases hlp : lookupDoc st.places r.placeId with
        | none => rw [hlp] at hok; exact absurd hok (by simp)
        | some pl =>
            rw [hlp] at hok
            obtain rfl := (Except.ok.injEq _ _).mp hok
            constructor
            · exact ⟨keys_deleteDoc_nodup _ _ hw.1,
                keys_setDoc_nodup _ _ _ hw.2⟩
            · intro p
              by_cases hp : p = r.placeId
              · subst hp
                rw [lookupDoc_setDoc_self]
                constructor
                · simp only [getPlaceRatings]
                  constructor
                  · intro _ hcontra
                    rw [hcontra] at hemp
                    exact hemp rfl
                  · intro _; simp
                · intro pl' hpl'
                  obtain rfl : _ = pl' := by simpa using hpl'
                  rfl
              · rw [lookupDoc_setDoc_other _ _ _ _ hp]
                constructor
                · simp only [getPlaceRatings]
                  rw [hrother p hp]
                  exact (hinv p).1
                · intro pl' hpl'
                  simp only [getPlaceRatings]
                  rw [hrother p hp]
                  exact (hinv p).2 pl' hpl'

/-- Under the invariant, deleting an existing rating cannot fail: the
place document needed by the stats update is guaranteed to exist. -/
theorem deleteRating_total (st : Store) (h : StoreInv st) (rid : DocId)
    (r : Rating) (hl : lookupDoc st.ratings rid = some r) :
    ∃ st', deleteRating st rid = .ok st' := by
  obtain ⟨hw, hinv⟩ := h
  unfold deleteRating
  rw [hl]
  dsimp only
  unfold recalculatePlaceStats
  dsimp only
  by_cases hemp : (ratingsOf (deleteDoc st.ratings rid) r.placeId).length = 0
  · rw [if_pos (by simpa [getPlaceRatings] using hemp)]
    exact ⟨_, rfl⟩
  · rw [if_neg (by simpa [getPlaceRatings] using hemp)]
    have hperm : st.ratings.Perm ((rid, r) :: deleteDoc st.ratings rid) :=
      perm_cons_deleteDoc st.ratings rid r hw.1 hl
    have hold : (ratingsOf st.ratings r.placeId).Perm
        (r :: ratingsOf (deleteDoc st.ratings rid) r.placeId) := by
      have := ratingsOf_perm hperm r.placeId
      rwa [ratingsOf_cons_of_eq _ _ _ rfl] at this
    have hne : ratingsOf st.ratings r.placeId ≠ [] := by
      intro hcontra
      have : r ∈ ratingsOf st.ratings r.placeId := by
        rw [List.Perm.mem_iff hold]
        exact List.mem_cons_self _ _
      rw [hcontra] at this
      exact absurd this (List.not_mem_nil _)
    have hsome : (lookupDoc st.places r.placeId).isSome := by
      refine (hinv r.placeId).1.mpr ?_
      simpa [getPlaceRatings] using hne
    cases hlp : lookupDoc st.places r.placeId with
    | none => rw [hlp] at hsome; exact absurd hsome (by simp)
    | some pl => exact ⟨_, rfl⟩

/-- C2: a Place aggregate document exists iff the set of ratings
referencing that place is non-empty.  The invariant (existence iff
non-emptiness, and the stored aggregate equal to the recomputation from
the current full rating set) is preserved by rating creation, update and
deletion, and deleting the last rating of a place removes the place's
aggregate document entirely. -/
theorem c2_place_aggregate_iff_ratings (st : Store) (h : StoreInv st) :
    (∀ p : String,
      (lookupDoc st.places p).isSome ↔ getPlaceRatings st p ≠ []) ∧
    (∀ (rid : DocId) (uid pid pn pa : String) (loc : LatLng)
        (cats : RatingCategory) (cm : String) (af : ℚ) (pt : String),
      lookupDoc st.ratings rid = none →
      StoreInv (createRating st rid uid pid pn pa loc cats cm af pt)) ∧
    (∀ (rid : DocId) (u : RatingUpdates) (st' : Store),
      updateRating st rid u = .ok st' → StoreInv st') ∧
    (∀ (rid : DocId) (r : Rating), lookupDoc st.ratings rid = some r →
      ∃ st', deleteRating st rid = .ok st' ∧ StoreInv st' ∧
        (getPlaceRatings st' r.placeId = [] →
          lookupDoc st'.places r.placeId = none)) := by
  refine ⟨fun p => (h.2 p).1, ?_, ?_, ?_⟩
  · intro rid uid pid pn pa loc cats cm af pt hfresh
    exact storeInv_createRating st h rid uid pid pn pa loc cats cm af pt
      hfresh
  · intro rid u st' hok
    exact storeInv_updateRating st h rid u st' hok
  · intro rid r hl
    obtain ⟨st', hok⟩ := deleteRating_total st h rid r hl
    have hinv' := storeInv_deleteRating st h rid st' hok
    refine ⟨st', hok, hinv', fun hemp => ?_⟩
    cases hcase : lookupDoc st'.places r.placeId with
    | none => rfl
    | some pl =>
        have hiff := (hinv'.2 r.placeId).1
        rw [hcase, hemp] at hiff
        exact absurd hiff (by simp)

/-- Witness for c2_place_aggregate_iff_ratings: starting from the empty
store, the invariant holds and is preserved when a first rating is
created. -/
theorem c2_place_aggregate_iff_ratings_witness :
    StoreInv (createRating ⟨[], []⟩ "r1" "u1" "p1" "Cafe" "1 Main St"
      ⟨0, 0⟩ scenarioCategories "" 0 "Ambivert") :=
  (c2_place_aggregate_iff_ratings ⟨[], []⟩
      ⟨⟨List.nodup_nil, List.nodup_nil⟩,
        fun _ => ⟨by simp [lookupDoc, getPlaceRatings, ratingsOf],
          fun _ hcontra => absurd hcontra (by simp [lookupDoc])⟩⟩).2.1
    "r1" "u1" "p1" "Cafe" "1 Main St" ⟨0, 0⟩ scenarioCategories "" 0
    "Ambivert" rfl

/-! ### Group voting lifecycle (group.service.ts and the bot's
finalizeVoting tally) -/

/-- Status of a group. -/
inductive GroupStatus
  | active
  | place_selected
  | archived
deriving DecidableEq, Repr

/-- Final place selection of a group; `selectedAt` (wall clock)
omitted. -/
structure FinalPlace where
  placeId : String
  placeName : String
  location : Option LatLng
deriving DecidableEq, Repr

/-- Group document (types.ts `Group`); member profiles, search
parameters, recommendation list and timestamps carry no logic for the
claims below and are omitted. -/
structure Group where
  createdBy : String
  members : List String
  votes : List (String × List String)
  finalPlace : Option FinalPlace
  status : GroupStatus
deriving DecidableEq, Repr

/-- User document as read by the id-resolution helper: only the optional
Discord id matters. -/
structure UserDoc where
  discordId : Option String
deriving DecidableEq, Repr

/-- Embedding of `GroupService.getUserByIdOrDiscordId`: try the id as a
primary (Firebase) document id first, then as a Discord id; `none` models
the thrown `User not found`. -/
def getUserByIdOrDiscordId (users : List (DocId × UserDoc))
    (userId : String) : Option DocId :=
  match lookupDoc users userId with
  | some _ => some userId
  | none =>
      (users.find? (fun u => decide (u.2.discordId = some userId))).map (·.1)

/-- Embedding of `GroupService.castVotes`: reject a ranked list of length
0 or more than 3, reject a missing group, reject an unresolvable user,
reject a non-member; otherwise overwrite that member's ranked list.  The
group's status is never inspected. -/
def castVotes (users : List (DocId × UserDoc))
    (groups : List (DocId × Group)) (groupId userId : String)
    (rankedPlaceIds : List String) :
    Except String (List (DocId × Group)) :=
  if rankedPlaceIds.length = 0 || rankedPlaceIds.length > 3 then
    .error "Must vote for 1-3 places"
  else
    match lookupDoc groups groupId with
    | none => .error "Group not found"
    | some group =>
        match getUserByIdOrDiscordId users userId with
        | none => .error "User not found"
        | some firebaseId =>
            if firebaseId ∈ group.members then
              .ok (setDoc groups groupId
                { group with
                  votes := setDoc group.votes firebaseId rankedPlaceIds })
            else
              .error "User not in group"

/-- Embedding of `GroupService.finalizeSelection`: set the final place
subfields and the status to place_selected unconditionally (a previously
stored final-place location survives when no location is passed, by
Firestore dotted-field update semantics).  The group's status is never
inspected. -/
def finalizeSelection (groups : List (DocId × Group))
    (groupId placeId placeName : String) (location : Option LatLng) :
    Except String (List (DocId × Group)) :=
  match lookupDoc groups groupId with
  | none => .error "Group not found"
  | some group =>
      let oldLocation :=
        match group.finalPlace with
        | some fp => fp.location
        | none => none
      let newLocation :=
        match location with
        | some l => some l
        | none => oldLocation
      .ok (setDoc groups groupId
        { group with
          finalPlace := some
            { placeId := placeId, placeName := placeName,
              location := newLocation },
          status := .place_selected })

/-- Entry in the per-place vote breakdown of `getVotingResults`. -/
structure VoteDetail where
  userId : String
  rank : ℕ
deriving DecidableEq, Repr

/-- Per-place result of `getVotingResults`. -/
structure PlaceResult where
  score : ℕ
  votes : List VoteDetail
deriving DecidableEq, Repr

/-- Points by ballot index, as the source writes it:
`[3, 2, 1][index] || 0`. -/
def points (index : ℕ) : ℕ := [3, 2, 1].getD index 0

/-- One step of the tally: award `points index` to the place and record
the vote, creating the place's entry on first encounter (JS object
insertion order is kept: existing entries are updated in place, new ones
appended). -/
def addVote (results : List (String × PlaceResult))
    (placeId userId : String) (index : ℕ) :
    List (String × PlaceResult) :=
  match lookupDoc results placeId with
  | none =>
      results ++
        [(placeId,
          { score := points index, votes := [⟨userId, index + 1⟩] })]
  | some _ =>
      results.map (fun e =>
        if e.1 = placeId then
          (e.1,
            { score := e.2.score + points index,
              votes := e.2.votes ++ [⟨userId, index + 1⟩] })
        else e)

/-- Tally of one member's ranked list starting at the given index. -/
def tallyBallot (userId : String) :
    List String → ℕ → List (String × PlaceResult) →
    List (String × PlaceResult)
  | [], _, results => results
  | placeId :: rest, index, results =>
      tallyBallot userId rest (index + 1) (addVote results placeId userId index)

/-- Embedding of `GroupService.getVotingResults` restricted to a group's
votes map: the ranked-choice counting loop. -/
def getVotingResults (votes : List (String × List String)) :
    List (String × PlaceResult) :=
  votes.foldl (fun results entry => tallyBallot entry.1 entry.2 0 results) []

/-- Embedding of the winner determination in the bot's `finalizeVoting`:
the same per-place scores, sorted descending by score (JS sort is stable;
ties keep first-encounter order), first entry wins. -/
def finalizeVotingWinner (votes : List (String × List String)) :
    Option (String × ℕ) :=
  let scores := (getVotingResults votes).map (fun e => (e.1, e.2.score))
  (scores.mergeSort (fun a b => decide (b.2 ≤ a.2))).head?

/-- Points by rank as the spec words it: 3 points for rank 1, 2 for
rank 2, 1 for rank 3, 0 beyond rank 3. -/
def specPoints (index : ℕ) : ℕ :=
  if index = 0 then 3
  else if index = 1 then 2
  else if index = 2 then 1
  else 0

/-- Score a single ranked ballot contributes to a place, by the spec's
formula. -/
def ballotScore (placeId : String) : List String → ℕ → ℕ
  | [], _ => 0
  | p :: rest, index =>
      (if p = placeId then specPoints index else 0) +
        ballotScore placeId rest (index + 1)

/-- Accumulated ranked-choice score of a place over all members, by the
spec's formula. -/
def rankedChoiceScore (votes : List (String × List String))
    (placeId : String) : ℕ :=
  (votes.map (fun e => ballotScore placeId e.2 0)).sum

/-- Score a place carries in a results table (0 when absent). -/
def scoreOf (results : List (String × PlaceResult)) (placeId : String) :
    ℕ :=
  ((lookupDoc results placeId).map (·.score)).getD 0

theorem points_eq_specPoints (index : ℕ) : points index = specPoints index := by
  rcases index with _ | _ | _ | n <;> rfl

theorem lookupDoc_append_of_none {α : Type} (docs : List (DocId × α))
    (id : DocId) (a : α) (h : lookupDoc docs id = none) :
    lookupDoc (docs ++ [(id, a)]) id = some a := by
  induction docs with
  | nil => exact lookupDoc_cons_eq _ _ _ rfl
  | cons d rest ih =>
      by_cases h1 : d.1 = id
      · rw [lookupDoc_cons_eq d rest id h1] at h; exact absurd h (by simp)
      · rw [lookupDoc_cons_ne d rest id h1] at h
        rw [List.cons_append, lookupDoc_cons_ne d _ id h1]
        exact ih h

theorem lookupDoc_append_single_other {α : Type} (docs : List (DocId × α))
    (id q : DocId) (a : α) (h : q ≠ id) :
    lookupDoc (docs ++ [(id, a)]) q = lookupDoc docs q := by
  induction docs with
  | nil =>
      simp only [List.nil_append]
      rw [lookupDoc_cons_ne _ _ q (fun hh => h hh.symm)]
  | cons d rest ih =>
      by_cases h1 : d.1 = q
      · rw [List.cons_append, lookupDoc_cons_eq _ _ q h1,
          lookupDoc_cons_eq d rest q h1]
      · rw [List.cons_append, lookupDoc_cons_ne _ _ q h1,
          lookupDoc_cons_ne d rest q h1]
        exact ih

theorem lookupDoc_addVote_bump (results : List (String × PlaceResult))
    (p u : String) (i : ℕ) (q : String) :
    lookupDoc (results.map (fun e =>
        if e.1 = p then
          (e.1,
            { score := e.2.score + points i,
              votes := e.2.votes ++ [⟨u, i + 1⟩] })
        else e)) q
      = if q = p then
          (lookupDoc results p).map (fun r =>
            { score := r.score + points i,
              votes := r.votes ++ [⟨u, i + 1⟩] })
        else lookupDoc results q := by
  induction results with
  | nil => by_cases hq : q = p <;> simp [lookupDoc, hq]
  | cons d rest ih =>
      simp only [List.map_cons]
      by_cases h1 : d.1 = p <;> by_cases hq : q = p
      · have h2 : d.1 = q := h1.trans hq.symm
        rw [if_pos hq, lookupDoc_cons_eq d rest p h1, if_pos h1,
          lookupDoc_cons_eq
            ((d.1, { score := d.2.score + points i,
                     votes := d.2.votes ++ [⟨u, i + 1⟩] }) :
              String × PlaceResult) _ q h2]
        rfl
      · have h2 : ¬ d.1 = q := fun hh => hq ((hh.symm.trans h1))
        rw [if_neg hq, lookupDoc_cons_ne d rest q h2, if_pos h1,
          lookupDoc_cons_ne
            ((d.1, { score := d.2.score + points i,
                     votes := d.2.votes ++ [⟨u, i + 1⟩] }) :
              String × PlaceResult) _ q h2,
          ih, if_neg hq]
      · have h2 : ¬ d.1 = q := fun hh => h1 (hh.trans hq)
        rw [if_pos hq, lookupDoc_cons_ne d rest p h1, if_neg h1,
          lookupDoc_cons_ne d _ q h2, ih, if_pos hq]
      · rw [if_neg hq, if_neg h1]
        by_cases h2 : d.1 = q
        · rw [lookupDoc_cons_eq d rest q h2, lookupDoc_cons_eq d _ q h2]
        · rw [lookupDoc_cons_ne d rest q h2, lookupDoc_cons_ne d _ q h2,
            ih, if_neg hq]

theorem scoreOf_addVote (results : List (String × PlaceResult))
    (p u : String) (i : ℕ) (q : String) :
    scoreOf (addVote results p u i) q
      = scoreOf results q + (if q = p then points i else 0) := by
  unfold addVote
  cases hl : lookupDoc results p with
  | none =>
      by_cases hq : q = p
      · subst hq
        unfold scoreOf
        rw [lookupDoc_append_of_none results q _ hl, hl]
        simp
      · unfold scoreOf
        rw [lookupDoc_append_single_other results p q _ hq, if_neg hq]
        simp
  | some r =>
      unfold scoreOf
      rw [lookupDoc_addVote_bump results p u i q]
      by_cases hq : q = p
      · subst hq
        rw [if_pos rfl, if_pos rfl, hl]
        rfl
      · rw [if_neg hq, if_neg hq]
        simp

theorem scoreOf_tallyBallot (u : String) (ballot : List String) (i : ℕ)
    (results : List (String × PlaceResult)) (q : String) :
    scoreOf (tallyBallot u ballot i results) q
      = scoreOf results q + ballotScore q ballot i := by
  induction ballot generalizing i results with
  | nil => simp [tallyBallot, ballotScore]
  | cons p rest ih =>
      rw [tallyBallot, ballotScore, ih, scoreOf_addVote,
        ← points_eq_specPoints]
      by_cases hq : p = q
      · rw [if_pos hq, if_pos (by rw [hq] : q = p)]
        omega
      · rw [if_neg hq, if_neg (fun hh => hq hh.symm)]
        omega

theorem scoreOf_foldl_tally (votes : List (String × List String))
    (results : List (String × PlaceResult)) (q : String) :
    scoreOf (votes.foldl
        (fun res entry => tallyBallot entry.1 entry.2 0 res) results) q
      = scoreOf results q + rankedChoiceScore votes q := by
  induction votes generalizing results with
  | nil => simp [rankedChoiceScore]
  | cons v rest ih =>
      rw [List.foldl_cons, ih, scoreOf_tallyBallot]
      unfold rankedChoiceScore
      rw [List.map_cons, List.sum_cons]
      omega

/-- The tally's per-place score is exactly the spec's ranked-choice
score. -/
theorem scoreOf_getVotingResults (votes : List (String × List String))
    (q : String) :
    scoreOf (getVotingResults votes) q = rankedChoiceScore votes q := by
  rw [getVotingResults, scoreOf_foldl_tally]
  simp [scoreOf, lookupDoc]

theorem lookupDoc_isSome_of_mem_keys {α : Type} (docs : List (DocId × α))
    (id : DocId) (h : id ∈ docs.map (·.1)) : (lookupDoc docs id).isSome := by
  induction docs with
  | nil => simp at h
  | cons d rest ih =>
      by_cases h1 : d.1 = id
      · rw [lookupDoc_cons_eq d rest id h1]; rfl
      · rw [lookupDoc_cons_ne d rest id h1]
        apply ih
        rw [List.map_cons, List.mem_cons] at h
        rcases h with heq | hmem
        · exact absurd heq.symm h1
        · exact hmem

theorem keys_addVote (results : List (String × PlaceResult))
    (p u : String) (i : ℕ) :
    (addVote results p u i).map (·.1)
      = if (lookupDoc results p).isSome then results.map (·.1)
        else results.map (·.1) ++ [p] := by
  unfold addVote
  cases hl : lookupDoc results p with
  | none => simp
  | some r =>
      simp only [Option.isSome_some, if_true, List.map_map]
      apply List.map_congr_left
      intro e _
      by_cases h1 : e.1 = p <;> simp [h1]

theorem nodup_keys_addVote (results : List (String × PlaceResult))
    (p u : String) (i : ℕ) (h : (results.map (·.1)).Nodup) :
    ((addVote results p u i).map (·.1)).Nodup := by
  rw [keys_addVote]
  cases hl : lookupDoc results p with
  | some r => simpa using h
  | none =>
      simp only [Option.isSome_none, Bool.false_eq_true, if_false]
      rw [List.nodup_append]
      refine ⟨h, List.nodup_singleton p, ?_⟩
      intro x hx hx'
      simp only [List.mem_singleton] at hx'
      subst hx'
      have := lookupDoc_isSome_of_mem_keys results x hx
      rw [hl] at this
      exact absurd this (by simp)

theorem nodup_keys_tallyBallot (u : String) (ballot : List String) (i : ℕ)
    (results : List (String × PlaceResult))
    (h : (results.map (·.1)).Nodup) :
    ((tallyBallot u ballot i results).map (·.1)).Nodup := by
  induction ballot generalizing i results with
  | nil => exact h
  | cons p rest ih =>
      rw [tallyBallot]
      exact ih _ _ (nodup_keys_addVote results p u i h)

theorem nodup_keys_getVotingResults (votes : List (String × List String)) :
    ((getVotingResults votes).map (·.1)).Nodup := by
  rw [getVotingResults]
  have haux : ∀ (vs : List (String × List String))
      (results : List (String × PlaceResult)),
      (results.map (·.1)).Nodup →
      ((vs.foldl (fun res entry => tallyBallot entry.1 entry.2 0 res)
        results).map (·.1)).Nodup := by
    intro vs
    induction vs with
    | nil => intro results h; exact h
    | cons v rest ih =>
        intro results h
        rw [List.foldl_cons]
        exact ih _ (nodup_keys_tallyBallot v.1 v.2 0 results h)
  exact haux votes [] (by simp)

theorem mem_of_lookupDoc_eq_some {α : Type} (docs : List (DocId × α))
    (q : DocId) (r : α) (h : lookupDoc docs q = some r) : (q, r) ∈ docs := by
  unfold lookupDoc at h
  cases hf : docs.find? (fun d => decide (d.1 = q)) with
  | none => rw [hf] at h; exact absurd h (by simp)
  | some d =>
      rw [hf] at h
      have hd := List.find?_some hf
      have hdm := List.mem_of_find?_eq_some hf
      simp only [Option.map_some', Option.some.injEq] at h
      simp only [decide_eq_true_eq] at hd
      obtain ⟨d1, d2⟩ := d
      simp only at hd h
      subst hd
      subst h
      exact hdm

theorem lookupDoc_eq_of_mem {α : Type} (docs : List (DocId × α))
    (k : DocId) (v : α) (hnd : (docs.map (·.1)).Nodup)
    (hmem : (k, v) ∈ docs) : lookupDoc docs k = some v := by
  induction docs with
  | nil => simp at hmem
  | cons d rest ih =>
      rw [List.map_cons, List.nodup_cons] at hnd
      rcases List.mem_cons.mp hmem with heq | hmem'
      · rw [← heq]
        exact lookupDoc_cons_eq _ _ _ rfl
      · by_cases h1 : d.1 = k
        · exfalso
          apply hnd.1
          rw [h1]
          exact List.mem_map.mpr ⟨(k, v), hmem', rfl⟩
        · rw [lookupDoc_cons_ne d rest k h1]
          exact ih hnd.2 hmem'

/-- The bot's winner carries the maximal score: it is one of the tallied
entries and every tallied entry scores at most it. -/
theorem finalizeVotingWinner_mem_max (votes : List (String × List String))
    (w : String × ℕ) (hw : finalizeVotingWinner votes = some w) :
    w ∈ (getVotingResults votes).map (fun e => (e.1, e.2.score)) ∧
    ∀ y ∈ (getVotingResults votes).map (fun e => (e.1, e.2.score)),
      y.2 ≤ w.2 := by
  unfold finalizeVotingWinner at hw
  dsimp only at hw
  have hperm := List.mergeSort_perm
    ((getVotingResults votes).map (fun e => (e.1, e.2.score)))
    (fun a b => decide (b.2 ≤ a.2))
  have hsorted := @List.sorted_mergeSort (String × ℕ)
    (fun a b => decide (b.2 ≤ a.2))
    (fun a b c hab hbc => by
      simp only [decide_eq_true_eq] at *
      omega)
    (fun a b => by
      simp only [Bool.or_eq_true, decide_eq_true_eq]
      omega)
    ((getVotingResults votes).map (fun e => (e.1, e.2.score)))
  cases hs : ((getVotingResults votes).map
      (fun e => (e.1, e.2.score))).mergeSort (fun a b => decide (b.2 ≤ a.2)) with
  | nil => rw [hs] at hw; exact absurd hw (by simp)
  | cons x tail =>
      rw [hs] at hw hperm hsorted
      simp only [List.head?_cons, Option.some.injEq] at hw
      subst hw
      constructor
      · exact hperm.mem_iff.mp (List.mem_cons_self _ _)
      · intro y hy
        rw [← hperm.mem_iff] at hy
        rcases List.mem_cons.mp hy with rfl | hy'
        · exact le_refl _
        · have := (List.pairwise_cons.mp hsorted).1 y hy'
          simpa using this

/-- Votes of scenario C: three voters rank [A,B,C], [B,A,C], [A,C,B]. -/
def scenarioVotes : List (String × List String) :=
  [("v1", ["A", "B", "C"]), ("v2", ["B", "A", "C"]), ("v3", ["A", "C", "B"])]

unseal List.merge List.mergeSort in
/-- C5: the ranked-choice tally awards 3/2/1 points for ranks 1/2/3 (0
beyond rank 3) summed over all members; the bot's winner carries the
highest accumulated score; and for ballots [A,B,C], [B,A,C], [A,C,B] the
tallies are A=8, B=6, C=4 with winner A. -/
theorem c5_ranked_choice_tally :
    (∀ (votes : List (String × List String)) (placeId : String),
      scoreOf (getVotingResults votes) placeId
        = rankedChoiceScore votes placeId) ∧
    (∀ (votes : List (String × List String)) (w : String × ℕ),
      finalizeVotingWinner votes = some w →
      rankedChoiceScore votes w.1 = w.2 ∧
      ∀ placeId, rankedChoiceScore votes placeId ≤ w.2) ∧
    scoreOf (getVotingResults scenarioVotes) "A" = 8 ∧
    scoreOf (getVotingResults scenarioVotes) "B" = 6 ∧
    scoreOf (getVotingResults scenarioVotes) "C" = 4 ∧
    finalizeVotingWinner scenarioVotes = some ("A", 8) := by
  refine ⟨scoreOf_getVotingResults, ?_, by decide, by decide, by decide,
    by decide⟩
  intro votes w hw
  obtain ⟨hmem, hmax⟩ := finalizeVotingWinner_mem_max votes w hw
  obtain ⟨e, he, heq⟩ := List.mem_map.mp hmem
  have hnd := nodup_keys_getVotingResults votes
  have hl : lookupDoc (getVotingResults votes) e.1 = some e.2 :=
    lookupDoc_eq_of_mem _ e.1 e.2 hnd (by rw [Prod.mk.eta]; exact he)
  constructor
  · rw [← heq]
    dsimp only
    rw [← scoreOf_getVotingResults]
    unfold scoreOf
    rw [hl]
    rfl
  · intro q
    cases hlq : lookupDoc (getVotingResults votes) q with
    | none =>
        rw [← scoreOf_getVotingResults]
        unfold scoreOf
        rw [hlq]
        simp
    | some r =>
        have hm : (q, r) ∈ getVotingResults votes :=
          mem_of_lookupDoc_eq_some _ _ _ hlq
        have hy : (q, r.score) ∈
            (getVotingResults votes).map (fun e => (e.1, e.2.score)) :=
          List.mem_map.mpr ⟨(q, r), hm, rfl⟩
        have := hmax (q, r.score) hy
        rw [← scoreOf_getVotingResults]
        unfold scoreOf
        rw [hlq]
        exact this

/-- Witness for c5_ranked_choice_tally: instantiating the winner-is-max
conjunct at the scenario ballots and the concrete winner (A, 8). -/
theorem c5_ranked_choice_tally_witness :
    rankedChoiceScore scenarioVotes "A" = 8 ∧
    rankedChoiceScore scenarioVotes "B" ≤ 8 :=
  ⟨(c5_ranked_choice_tally.2.1 scenarioVotes ("A", 8)
      c5_ranked_choice_tally.2.2.2.2.2).1,
    (c5_ranked_choice_tally.2.1 scenarioVotes ("A", 8)
      c5_ranked_choice_tally.2.2.2.2.2).2 "B"⟩

/-- C6: castVotes rejects ranked lists of length 0 or more than 3,
rejects callers that do not resolve to a current member, and on success
replaces (not merges) that member's previously stored ranked list while
leaving every other member's list unchanged. -/
theorem c6_castVotes_validation (users : List (DocId × UserDoc))
    (groups : List (DocId × Group)) (groupId userId : String)
    (ranked : List String) :
    (ranked.length = 0 ∨ ranked.length > 3 →
      castVotes users groups groupId userId ranked
        = .error "Must vote for 1-3 places") ∧
    (∀ g, lookupDoc groups groupId = some g →
      (∀ fid, getUserByIdOrDiscordId users userId = some fid →
        fid ∉ g.members) →
      ∀ groups', castVotes users groups groupId userId ranked
        ≠ .ok groups') ∧
    (∀ groups', castVotes users groups groupId userId ranked = .ok groups' →
      1 ≤ ranked.length ∧ ranked.length ≤ 3 ∧
      ∃ g fid, lookupDoc groups groupId = some g ∧
        getUserByIdOrDiscordId users userId = some fid ∧
        fid ∈ g.members ∧
        groups' = setDoc groups groupId
          { g with votes := setDoc g.votes fid ranked } ∧
        lookupDoc (setDoc g.votes fid ranked) fid = some ranked ∧
        ∀ other, other ≠ fid →
          lookupDoc (setDoc g.votes fid ranked) other
            = lookupDoc g.votes other) := by
  refine ⟨?_, ?_, ?_⟩
  · intro hlen
    unfold castVotes
    have hc : (decide (ranked.length = 0) || decide (ranked.length > 3))
        = true := by
      rcases hlen with h | h <;> simp [h]
    rw [if_pos hc]
  · intro g hg hnm groups'
    unfold castVotes
    by_cases hc : (decide (ranked.length = 0) || decide (ranked.length > 3))
        = true
    · rw [if_pos hc]; intro hh; exact absurd hh (by simp)
    · rw [if_neg hc, hg]
      dsimp only
      cases hu : getUserByIdOrDiscordId users userId with
      | none => intro hh; exact absurd hh (by simp)
      | some fid =>
          dsimp only
          rw [if_neg (hnm fid hu)]
          intro hh; exact absurd hh (by simp)
  · intro groups' hok
    unfold castVotes at hok
    by_cases hc : (decide (ranked.length = 0) || decide (ranked.length > 3))
        = true
    · rw [if_pos hc] at hok; exact absurd hok (by simp)
    · rw [if_neg hc] at hok
      have hlen : 1 ≤ ranked.length ∧ ranked.length ≤ 3 := by
        simp only [Bool.or_eq_true, decide_eq_true_eq, not_or] at hc
        omega
      cases hg : lookupDoc groups groupId with
      | none => rw [hg] at hok; exact absurd hok (by simp)
      | some g =>
          rw [hg] at hok
          dsimp only at hok
          cases hu : getUserByIdOrDiscordId users userId with
          | none => rw [hu] at hok; exact absurd hok (by simp)
          | some fid =>
              rw [hu] at hok
              dsimp only at hok
              by_cases hm : fid ∈ g.members
              · rw [if_pos hm] at hok
                obtain rfl := ((Except.ok.injEq _ _).mp hok).symm
                exact ⟨hlen.1, hlen.2, g, fid, rfl, rfl, hm, rfl,
                  lookupDoc_setDoc_self _ _ _,
                  fun other hother =>
                    lookupDoc_setDoc_other _ _ _ _ hother⟩
              · rw [if_neg hm] at hok
                exact absurd hok (by simp)

/-- Witness for c6_castVotes_validation: an empty ranked list is
rejected. -/
theorem c6_castVotes_validation_witness :
    castVotes [] [] "g1" "u1" ([] : List String)
      = .error "Must vote for 1-3 places" :=
  (c6_castVotes_validation [] [] "g1" "u1" []).1 (Or.inl rfl)

/-- Group used to exhibit the missing status guard: already archived. -/
def archivedDemoGroup : Group :=
  { createdBy := "u1", members := ["u1", "u2"], votes := [],
    finalPlace := none, status := .archived }

/-- Users backing the archived demo group. -/
def demoUsers : List (DocId × UserDoc) :=
  [("u1", { discordId := none }), ("u2", { discordId := none })]

/-- C3 counterexample: against an archived group, finalizeSelection is
neither rejected nor a no-op (it overwrites the status with
place_selected), and castVotes succeeds rather than raising a Conflict
error. -/
theorem c3_counterexample_archived_not_guarded :
    finalizeSelection [("g1", archivedDemoGroup)] "g1" "p1" "Cafe" none
      = .ok [("g1",
          { archivedDemoGroup with
            finalPlace := some
              { placeId := "p1", placeName := "Cafe", location := none },
            status := .place_selected })] ∧
    ({ archivedDemoGroup with
        finalPlace := some
          { placeId := "p1", placeName := "Cafe", location := none },
        status := .place_selected } : Group) ≠ archivedDemoGroup ∧
    castVotes demoUsers [("g1", archivedDemoGroup)] "g1" "u2" ["p1"]
      = .ok [("g1",
          { archivedDemoGroup with votes := [("u2", ["p1"])] })] := by
  refine ⟨rfl, by decide, rfl⟩

/-- C3 amended: neither finalizeSelection nor castVotes inspects the
group's status.  finalizeSelection sets finalPlace and status =
place_selected whatever the current status (so archived and
place_selected groups admit further transitions), and castVotes succeeds
against a non-active group whenever its length and membership checks
pass. -/
theorem c3_no_status_guard (users : List (DocId × UserDoc))
    (groups : List (DocId × Group)) (groupId userId : String)
    (g : Group) (pid pname : String) (loc : Option LatLng)
    (ranked : List String) (hg : lookupDoc groups groupId = some g) :
    finalizeSelection groups groupId pid pname loc
      = .ok (setDoc groups groupId
          { g with
            finalPlace := some
              { placeId := pid, placeName := pname,
                location :=
                  match loc with
                  | some l => some l
                  | none =>
                      match g.finalPlace with
                      | some fp => fp.location
                      | none => none },
            status := .place_selected }) ∧
    (∀ fid, 1 ≤ ranked.length → ranked.length ≤ 3 →
      getUserByIdOrDiscordId users userId = some fid →
      fid ∈ g.members →
      castVotes users groups groupId userId ranked
        = .ok (setDoc groups groupId
            { g with votes := setDoc g.votes fid ranked })) := by
  constructor
  · unfold finalizeSelection
    rw [hg]
  · intro fid h1 h3 hu hm
    unfold castVotes
    have hc : ¬ ((decide (ranked.length = 0) || decide (ranked.length > 3))
        = true) := by
      simp only [Bool.or_eq_true, decide_eq_true_eq, not_or]
      omega
    rw [if_neg hc, hg]
    dsimp only
    rw [hu]
    dsimp only
    rw [if_pos hm]

/-- Witness for c3_no_status_guard at the archived demo group. -/
theorem c3_no_status_guard_witness :
    finalizeSelection [("g1", archivedDemoGroup)] "g1" "p2" "Bar" none
      = .ok (setDoc [("g1", archivedDemoGroup)] "g1"
          { archivedDemoGroup with
            finalPlace := some
              { placeId := "p2", placeName := "Bar", location := none },
            status := .place_selected }) ∧
    castVotes demoUsers [("g1", archivedDemoGroup)] "g1" "u2" ["p1"]
      = .ok (setDoc [("g1", archivedDemoGroup)] "g1"
          { archivedDemoGroup with
            votes := setDoc archivedDemoGroup.votes "u2" ["p1"] }) :=
  ⟨(c3_no_status_guard demoUsers [("g1", archivedDemoGroup)] "g1" "u2"
      archivedDemoGroup "p2" "Bar" none ["p1"] rfl).1,
    (c3_no_status_guard demoUsers [("g1", archivedDemoGroup)] "g1" "u2"
      archivedDemoGroup "p2" "Bar" none ["p1"] rfl).2 "u2" (by decide)
      (by decide) rfl (by decide)⟩

/-! ### Explore "places for you" feed
(explore.ts `GET /api/explore/places`) -/

/-- Feed entry of the route; display metadata (name, address, location)
carries no logic and is omitted.  `confidence` is the integer percentage
the route returns; the rated branch of the route does not set `isUnrated`
(undefined is falsy), modelled as `false`. -/
structure Recommendation where
  id : String
  predictedScore : ℚ
  confidence : ℤ
  totalRatings : ℕ
  similarRatings : ℕ
  isUnrated : Bool
deriving DecidableEq, Repr

/-- Embedding of the per-place scoring in the route's loop: a place with
no ratings gets the neutral entry (score 5.0, confidence 0, flagged
unrated); otherwise every rating is re-projected for the viewer with
calculateAdjustedScoreForViewer, the predicted score is the mean of the
adjusted scores rounded to one decimal, and the confidence is
min(count/10, 1) as a rounded percentage. -/
def scorePlaceForViewer (id : String) (ratings : List Rating)
    (userAF : ℚ) : Recommendation :=
  if ratings.length = 0 then
    { id := id, predictedScore := 5.0, confidence := 0, totalRatings := 0,
      similarRatings := 0, isUnrated := true }
  else
    let adjustedScores := ratings.map (fun r =>
      calculateAdjustedScoreForViewer r.categories r.userAdjustmentFactor
        userAF)
    let avgAdjustedScore := adjustedScores.sum / (ratings.length : ℚ)
    let confidence : ℚ := min ((ratings.length : ℚ) / 10) 1
    { id := id,
      predictedScore := round1 avgAdjustedScore,
      confidence := jround (confidence * 100),
      totalRatings := ratings.length,
      similarRatings := ratings.length,
      isUnrated := false }

/-- Comparator of the feed sort, as `comparator value ≤ 0`: unrated
entries after rated ones, rated entries by
predictedScore × (confidence/100) descending. -/
def exploreSortLe (a b : Recommendation) : Bool :=
  if a.isUnrated then b.isUnrated
  else b.isUnrated ||
    decide (b.predictedScore * ((b.confidence : ℚ) / 100)
      ≤ a.predictedScore * ((a.confidence : ℚ) / 100))

/-- The feed: score every nearby place for the viewer, then sort with
the route's comparator (JS sort is stable, as is mergeSort). -/
def buildExploreFeed (places : List (String × List Rating))
    (userAF : ℚ) : List Recommendation :=
  (places.map (fun p => scorePlaceForViewer p.1 p.2 userAF)).mergeSort
    exploreSortLe

theorem jround_intCast (k : ℤ) : jround (k : ℚ) = k := by
  rw [jround, add_comm, Int.floor_add_int]
  norm_num

theorem scorePlaceForViewer_isUnrated_iff (id : String)
    (ratings : List Rating) (userAF : ℚ) :
    (scorePlaceForViewer id ratings userAF).isUnrated = true ↔
      (scorePlaceForViewer id ratings userAF).totalRatings = 0 := by
  unfold scorePlaceForViewer
  by_cases h : ratings.length = 0 <;> simp [h]

theorem exploreSortLe_trans (a b c : Recommendation)
    (hab : exploreSortLe a b) (hbc : exploreSortLe b c) :
    exploreSortLe a c = true := by
  unfold exploreSortLe at *
  cases ha : a.isUnrated <;> cases hb : b.isUnrated <;>
    cases hc : c.isUnrated <;>
    simp_all
  linarith

theorem exploreSortLe_total (a b : Recommendation) :
    (exploreSortLe a b || exploreSortLe b a) = true := by
  unfold exploreSortLe
  cases ha : a.isUnrated <;> cases hb : b.isUnrated <;> simp_all
  exact le_total _ _

/-- C9: in the feed, every place with zero ratings is ordered after
every place with at least one rating, and rated places are ordered by
predictedScore × confidence descending. -/
theorem c9_feed_sort_contract (places : List (String × List Rating))
    (userAF : ℚ) :
    (buildExploreFeed places userAF).Pairwise (fun a b =>
      (b.totalRatings ≠ 0 → a.totalRatings ≠ 0) ∧
      (a.totalRatings ≠ 0 → b.totalRatings ≠ 0 →
        b.predictedScore * (b.confidence : ℚ)
          ≤ a.predictedScore * (a.confidence : ℚ))) ∧
    ∀ r ∈ buildExploreFeed places userAF,
      (r.isUnrated = true ↔ r.totalRatings = 0) := by
  have hmem : ∀ r ∈ buildExploreFeed places userAF,
      (r.isUnrated = true ↔ r.totalRatings = 0) := by
    intro r hr
    rw [buildExploreFeed, List.mem_mergeSort] at hr
    obtain ⟨p, _, rfl⟩ := List.mem_map.mp hr
    exact scorePlaceForViewer_isUnrated_iff p.1 p.2 userAF
  refine ⟨?_, hmem⟩
  have hsorted := @List.sorted_mergeSort Recommendation exploreSortLe
    exploreSortLe_trans exploreSortLe_total
    (places.map (fun p => scorePlaceForViewer p.1 p.2 userAF))
  have hsorted' : (buildExploreFeed places userAF).Pairwise
      (fun a b => exploreSortLe a b = true) := hsorted
  refine List.Pairwise.imp_of_mem ?_ hsorted'
  intro a b ha hb hle
  have hia := hmem a ha
  have hib := hmem b hb
  unfold exploreSortLe at hle
  constructor
  · intro hbt
    intro hat
    rw [← hia] at hat
    rw [if_pos hat] at hle
    exact hbt (hib.mp hle)
  · intro hat hbt
    have hau : a.isUnrated = false := by
      cases hval : a.isUnrated
      · rfl
      · exact absurd (hia.mp hval) hat
    have hbu : b.isUnrated = false := by
      cases hval : b.isUnrated
      · rfl
      · exact absurd (hib.mp hval) hbt
    rw [hau] at hle
    simp only [Bool.false_eq_true, if_false, hbu, Bool.false_or,
      decide_eq_true_eq] at hle
    have h100 : (0 : ℚ) < 100 := by norm_num
    rw [← mul_div_assoc, ← mul_div_assoc] at hle
    exact (div_le_div_iff_of_pos_right h100).mp hle

/-- Witness for c9_feed_sort_contract: in a one-place feed the unrated
flag of the entry coincides with its rating count being zero. -/
theorem c9_feed_sort_contract_witness :
    (scorePlaceForViewer "p2" [] 0).isUnrated = true ↔
      (scorePlaceForViewer "p2" [] 0).totalRatings = 0 :=
  (c9_feed_sort_contract [("p2", [])] 0).2 (scorePlaceForViewer "p2" [] 0)
    (by simp [buildExploreFeed])

/-- Demo categories: all five dimensions 7. -/
def sevenCats : RatingCategory :=
  { crowdSize := 7, noiseLevel := 7, socialEnergy := 7, service := 7,
    atmosphere := 7 }

/-- Demo categories: service 8, the rest 7. -/
def sevenCatsServiceEight : RatingCategory :=
  { crowdSize := 7, noiseLevel := 7, socialEnergy := 7, service := 8,
    atmosphere := 7 }

/-- Demo rating by an ambivert rater (adjustment factor 0). -/
def mkDemoRating (cats : RatingCategory) : Rating :=
  { userId := "u1", placeId := "p1", placeName := "Cafe",
    placeAddress := "1 Main St", location := ⟨0, 0⟩, categories := cats,
    overallScore := calculateOverallScore cats 0, comment := "",
    userAdjustmentFactor := 0, userPersonalityType := "Ambivert" }

/-- Three demo ratings whose viewer-adjusted scores are 7, 7 and 7.2, so
their mean 106/15 is not representable with one decimal. -/
def demoFeedRatings : List Rating :=
  [mkDemoRating sevenCats, mkDemoRating sevenCats,
    mkDemoRating sevenCatsServiceEight]

/-- C4 counterexample: for a place with three ratings of adjusted scores
7, 7 and 7.2 and a viewer with adjustment factor 0, the returned
predictedScore is 7.1, not the exact unweighted mean 106/15, and the
returned confidence field is the integer percentage 30, not the fraction
min(3/10, 1). -/
theorem c4_counterexample_rounding :
    (scorePlaceForViewer "p1" demoFeedRatings 0).predictedScore = 71 / 10 ∧
    ((demoFeedRatings.map (fun r =>
        calculateAdjustedScoreForViewer r.categories
          r.userAdjustmentFactor 0)).sum
      / (demoFeedRatings.length : ℚ)) = 106 / 15 ∧
    (scorePlaceForViewer "p1" demoFeedRatings 0).predictedScore
      ≠ ((demoFeedRatings.map (fun r =>
          calculateAdjustedScoreForViewer r.categories
            r.userAdjustmentFactor 0)).sum
        / (demoFeedRatings.length : ℚ)) ∧
    (scorePlaceForViewer "p1" demoFeedRatings 0).confidence = 30 ∧
    ((scorePlaceForViewer "p1" demoFeedRatings 0).confidence : ℚ)
      ≠ min ((demoFeedRatings.length : ℚ) / 10) 1 := by
  refine ⟨?_, ?_, ?_, ?_, ?_⟩ <;>
    norm_num [scorePlaceForViewer, demoFeedRatings, mkDemoRating,
      sevenCats, sevenCatsServiceEight, calculateAdjustedScoreForViewer,
      calculateOverallScore, adjustCategoriesForViewer,
      adjustCategoriesForPersonality, normalizeCategoriesToObjective,
      round1, jround]

/-- C4 amended: for every place with at least one rating, the feed's
predictedScore is the unweighted arithmetic mean over ALL the place's
ratings of calculateAdjustedScoreForViewer, rounded to one decimal (no
rating is excluded or down-weighted by personality distance), and its
confidence field is the integer percentage 100 × min(ratingCount/10, 1). -/
theorem c4_predicted_score_unweighted_mean (id : String)
    (ratings : List Rating) (userAF : ℚ) (h : ratings ≠ []) :
    (scorePlaceForViewer id ratings userAF).predictedScore
      = round1 ((ratings.map (fun r =>
          calculateAdjustedScoreForViewer r.categories
            r.userAdjustmentFactor userAF)).sum
          / (ratings.length : ℚ)) ∧
    ((scorePlaceForViewer id ratings userAF).confidence : ℚ)
      = 100 * min ((ratings.length : ℚ) / 10) 1 ∧
    (scorePlaceForViewer id ratings userAF).totalRatings
      = ratings.length ∧
    (scorePlaceForViewer id ratings userAF).similarRatings
      = ratings.length ∧
    (scorePlaceForViewer id ratings userAF).isUnrated = false := by
  have hlen : ¬ ratings.length = 0 := by
    simpa [List.length_eq_zero] using h
  unfold scorePlaceForViewer
  rw [if_neg hlen]
  refine ⟨rfl, ?_, rfl, rfl, rfl⟩
  show (jround (min ((ratings.length : ℚ) / 10) 1 * 100) : ℚ)
    = 100 * min ((ratings.length : ℚ) / 10) 1
  rcases le_or_lt (ratings.length : ℚ) 10 with hle | hlt
  · have hmin : min ((ratings.length : ℚ) / 10) 1
        = (ratings.length : ℚ) / 10 := by
      apply min_eq_left
      rw [div_le_one (by norm_num : (0:ℚ) < 10)]
      exact hle
    rw [hmin]
    have hcast : (ratings.length : ℚ) / 10 * 100
        = ((10 * (ratings.length : ℤ) : ℤ) : ℚ) := by
      push_cast
      ring
    rw [hcast, jround_intCast]
    push_cast
    ring
  · have hmin : min ((ratings.length : ℚ) / 10) 1 = 1 := by
      apply min_eq_right
      rw [le_div_iff₀ (by norm_num : (0:ℚ) < 10)]
      linarith
    rw [hmin]
    norm_num [jround]

/-- Witness for c4_predicted_score_unweighted_mean at the three demo
ratings and viewer adjustment factor 0. -/
theorem c4_predicted_score_unweighted_mean_witness :
    demoFeedRatings ≠ [] ∧
    ((scorePlaceForViewer "p1" demoFeedRatings 0).predictedScore
      = round1 ((demoFeedRatings.map (fun r =>
          calculateAdjustedScoreForViewer r.categories
            r.userAdjustmentFactor 0)).sum
          / (demoFeedRatings.length : ℚ)) ∧
    ((scorePlaceForViewer "p1" demoFeedRatings 0).confidence : ℚ)
      = 100 * min ((demoFeedRatings.length : ℚ) / 10) 1 ∧
    (scorePlaceForViewer "p1" demoFeedRatings 0).totalRatings
      = demoFeedRatings.length ∧
    (scorePlaceForViewer "p1" demoFeedRatings 0).similarRatings
      = demoFeedRatings.length ∧
    (scorePlaceForViewer "p1" demoFeedRatings 0).isUnrated = false) :=
  ⟨by simp [demoFeedRatings],
    c4_predicted_score_unweighted_mean "p1" demoFeedRatings 0
      (by simp [demoFeedRatings])⟩

end Senergy
